import Mathlib

set_option maxHeartbeats 1000000

/-!
Verification development for the flutter_mcp desktop background-task core.

The central model below is a shallow embedding of the Windows
`BackgroundService` (src/windows/background/background_service.cpp): a
labelled transition system whose atomic steps are exactly the lock-bounded
critical sections and thread-lifecycle events of the C++ code.  Separate
function models embed the Linux worker loop
(src/linux/flutter_mcp_plugin.cc, `background_worker`), the periodic tick
cadence of both workers, and the `scheduleBackgroundTask` method handler of
the Windows plugin (src/windows/flutter_mcp_plugin.cpp).
-/

/-- One entry of `scheduled_tasks_`: the map key (`id`), the due time
(`execute_time`, modelled as a `Nat` monotonic timestamp), and `gen`, a
serial number identifying the particular `ScheduledTask` instance (the
stored `std::function` closure); a re-schedule under the same id creates a
fresh instance, so it gets a fresh `gen`. -/
structure STask where
  id  : String
  gen : Nat
  due : Nat
deriving DecidableEq, Repr

/-- `scheduled_tasks_.erase(task_id)`: drop the entry keyed by `tid`. -/
def eraseId (ts : List STask) (tid : String) : List STask :=
  ts.filter (fun t => t.id ≠ tid)

/-- Accumulator form of `std::min_element` over `execute_time` with the
comparator `a.second.execute_time < b.second.execute_time` (lines 106-111):
the current minimum is replaced only on strict decrease, so the first of
several equal minima is kept. -/
def minDueAux (m : STask) : List STask → STask
  | [] => m
  | t :: ts => minDueAux (if t.due < m.due then t else m) ts

/-- `std::min_element` over the task map: the earliest-due entry. -/
def minDue : List STask → Option STask
  | [] => none
  | t :: ts => some (minDueAux t ts)

/-- State of one `BackgroundService` object together with its two threads.

* `isRunning`, `schedulerRunning`: the two atomic flags `is_running_` and
  `scheduler_running_`.
* `stopping`: true between the flag writes of a `Stop()` call and its
  return (the foreground is blocked inside `Stop` joining the threads).
* `workerAlive` / `schedulerAlive`: the `BackgroundWorker` / `TaskScheduler`
  thread has been spawned and has not yet returned.
* `tasks`: the contents of `scheduled_tasks_`.
* `pendingExec`: a task already erased from the map by the scheduler
  (line 119) whose action invocation (line 123) has not yet happened.
* `executed`: the `gen`s of all task instances whose action has run, in
  invocation order.
* `ticks`: number of `backgroundEvent` periodic events published so far.
* `now`: the monotonic clock.
* `nextGen`: serial number for the next scheduled task instance. -/
structure SvcState where
  isRunning        : Bool
  schedulerRunning : Bool
  stopping         : Bool
  workerAlive      : Bool
  schedulerAlive   : Bool
  tasks            : List STask
  pendingExec      : Option STask
  executed         : List Nat
  ticks            : Nat
  now              : Nat
  nextGen          : Nat
deriving DecidableEq, Repr

/-- The freshly constructed service: both flags false, no threads, empty
map (constructor at lines 6-10). -/
def svcInit : SvcState :=
  { isRunning := false, schedulerRunning := false, stopping := false,
    workerAlive := false, schedulerAlive := false, tasks := [],
    pendingExec := none, executed := [], ticks := 0, now := 0, nextGen := 0 }

/-- `Start` (lines 16-28): set both flags, spawn both threads. -/
def startF (s : SvcState) : SvcState :=
  { s with isRunning := true, schedulerRunning := true,
           workerAlive := true, schedulerAlive := true }

/-- `ScheduleTask` (lines 59-69): under `tasks_mutex_`, build a task with
`execute_time = now + delay` and assign it into the map
(`scheduled_tasks_[task_id] = scheduled_task` inserts or replaces). -/
def schedF (s : SvcState) (tid : String) (delay : Nat) : SvcState :=
  { s with tasks := eraseId s.tasks tid ++ [⟨tid, s.nextGen, s.now + delay⟩],
           nextGen := s.nextGen + 1 }

/-- `CancelTask` (lines 71-74): under the lock, erase the key. -/
def cancelF (s : SvcState) (tid : String) : SvcState :=
  { s with tasks := eraseId s.tasks tid }

/-- First half of `Stop` (lines 30-37): clear both flags (and wake the
scheduler); the call then blocks joining the threads. -/
def stopBeginF (s : SvcState) : SvcState :=
  { s with isRunning := false, schedulerRunning := false, stopping := true }

/-- Second half of `Stop` (lines 48-52), reached only after both joins
return: clear the task map and return to the caller. -/
def stopEndF (s : SvcState) : SvcState :=
  { s with tasks := [], stopping := false }

/-- Scheduler critical section at lines 113-119: the earliest task is due,
so erase it from the map; the invocation itself happens after `unlock`. -/
def popF (s : SvcState) (t : STask) : SvcState :=
  { s with tasks := eraseId s.tasks t.id, pendingExec := some t }

/-- The action invocation `task()` at line 123 (after `lock.unlock()`),
followed by the task-result event publish done inside the stored closure. -/
def execF (s : SvcState) (t : STask) : SvcState :=
  { s with pendingExec := none, executed := s.executed ++ [t.gen] }

/-- One periodic publish by `BackgroundWorker` (lines 79-86). -/
def tickF (s : SvcState) : SvcState := { s with ticks := s.ticks + 1 }

/-- Passage of `d` milliseconds of monotonic time. -/
def advF (s : SvcState) (d : Nat) : SvcState := { s with now := s.now + d }

/-- `BackgroundWorker` observes `is_running_ == false` and returns. -/
def workerExitF (s : SvcState) : SvcState := { s with workerAlive := false }

/-- `TaskScheduler` observes `scheduler_running_ == false` and returns. -/
def schedExitF (s : SvcState) : SvcState := { s with schedulerAlive := false }

/-- Labels of the atomic steps of the service. -/
inductive Lbl where
  | start
  | schedule (tid : String) (d : Nat)
  | cancel (tid : String)
  | stopBegin
  | stopEnd
  | stopNoop
  | pop (t : STask)
  | exec (t : STask)
  | tick
  | workerExit
  | schedExit
  | advance (d : Nat)
deriving DecidableEq, Repr

/-- Small-step semantics of `BackgroundService` under arbitrary
interleaving of the foreground caller, the worker thread, the scheduler
thread, and the clock.  Guards are the checks the C++ code performs:

* `start` requires a stopped service (`if (is_running_) return;`) with no
  leftover threads (the foreground is sequential, so it cannot race its
  own `Stop`).
* `stopBegin` requires `is_running_` (`if (!is_running_) return;`), and
  `stopEnd` requires both joins to have returned.
* `stopNoop` is the early return of `Stop` on an already stopped service:
  it mutates nothing — in particular it does not clear the map.
* `pop` requires a live scheduler thread, the earliest map entry being
  due (`execute_time <= now`), and no invocation already in flight; it
  can fire even after `stopBegin`, because the scheduler may already be
  past its `while (scheduler_running_)` check.
* `exec` finishes an in-flight invocation (it runs outside the lock and
  is never interrupted).
* `tick` requires a live worker thread.
* `schedule`, `cancel` and `advance` are unguarded: the foreground may
  call them in any state. -/
inductive Step : Lbl → SvcState → SvcState → Prop where
  | start (s : SvcState) (h1 : s.isRunning = false) (h2 : s.stopping = false)
      (h3 : s.workerAlive = false) (h4 : s.schedulerAlive = false) :
      Step .start s (startF s)
  | schedule (s : SvcState) (tid : String) (d : Nat) :
      Step (.schedule tid d) s (schedF s tid d)
  | cancel (s : SvcState) (tid : String) :
      Step (.cancel tid) s (cancelF s tid)
  | stopBegin (s : SvcState) (h : s.isRunning = true) :
      Step .stopBegin s (stopBeginF s)
  | stopEnd (s : SvcState) (h1 : s.stopping = true) (h2 : s.workerAlive = false)
      (h3 : s.schedulerAlive = false) :
      Step .stopEnd s (stopEndF s)
  | stopNoop (s : SvcState) (h1 : s.isRunning = false) (h2 : s.stopping = false) :
      Step .stopNoop s s
  | pop (s : SvcState) (t : STask) (h1 : s.schedulerAlive = true)
      (h2 : s.pendingExec = none) (h3 : minDue s.tasks = some t)
      (h4 : t.due ≤ s.now) :
      Step (.pop t) s (popF s t)
  | exec (s : SvcState) (t : STask) (h : s.pendingExec = some t) :
      Step (.exec t) s (execF s t)
  | tick (s : SvcState) (h : s.workerAlive = true) :
      Step .tick s (tickF s)
  | workerExit (s : SvcState) (h1 : s.workerAlive = true)
      (h2 : s.isRunning = false) :
      Step .workerExit s (workerExitF s)
  | schedExit (s : SvcState) (h1 : s.schedulerAlive = true)
      (h2 : s.schedulerRunning = false) (h3 : s.pendingExec = none) :
      Step .schedExit s (schedExitF s)
  | advance (s : SvcState) (d : Nat) :
      Step (.advance d) s (advF s d)

/-- Some step. -/
def AnyStep (a b : SvcState) : Prop := ∃ l, Step l a b

/-- Reachability from the freshly constructed service. -/
def Reach (s : SvcState) : Prop := Relation.ReflTransGen AnyStep svcInit s

/-- Reachability from an arbitrary state. -/
def ReachFrom (a b : SvcState) : Prop := Relation.ReflTransGen AnyStep a b

/-- A step that is not a `Start` call. -/
def NoStartStep (a b : SvcState) : Prop := ∃ l, l ≠ Lbl.start ∧ Step l a b

/-- Reachability without any intervening `Start`. -/
def ReachNoStart (a b : SvcState) : Prop := Relation.ReflTransGen NoStartStep a b

/-- Instance numbers held by the map. -/
def taskGens (ts : List STask) : List Nat := ts.map (fun t => t.gen)

/-- Instance number of the in-flight invocation, if any. -/
def pendGens (s : SvcState) : List Nat :=
  s.pendingExec.elim [] (fun t => [t.gen])

/-- Every instance number the state knows about: in the map, in flight,
or already executed. -/
def genList (s : SvcState) : List Nat :=
  taskGens s.tasks ++ pendGens s ++ s.executed

/-- The machine invariant: instance numbers are pairwise distinct across
map, in-flight slot and execution log; all are below the allocator; and a
dead scheduler thread leaves no in-flight invocation behind. -/
structure SvcInv (s : SvcState) : Prop where
  nodup : (genList s).Nodup
  bound : ∀ g ∈ genList s, g < s.nextGen
  pendNone : s.schedulerAlive = false → s.pendingExec = none

/-! ### After both threads have exited, nothing runs any more -/

/-- Both background threads have terminated and no invocation is in
flight. -/
def DeadSvc (s : SvcState) : Prop :=
  s.workerAlive = false ∧ s.schedulerAlive = false ∧ s.pendingExec = none

/-! ### Dead instance numbers stay dead -/

/-- The instance `g` is gone: not in the map, not in flight, not in the
execution log, and the allocator will never hand out `g` again. -/
def DeadGen (g : Nat) (s : SvcState) : Prop := g ∉ genList s ∧ g < s.nextGen

/-! ### Linux worker loop (src/linux/flutter_mcp_plugin.cc) -/

/-- One entry of the Linux `scheduled_tasks` map: key and
`execute_time`.  The list is kept in `std::map` iteration order, i.e.
sorted by id. -/
structure LTask where
  id  : String
  due : Nat
deriving DecidableEq, Repr

/-- One action invocation, recording whether `tasks_mutex` was held at
the moment the stored `std::function` was called. -/
structure LCall where
  id       : String
  lockHeld : Bool
deriving DecidableEq, Repr

/-- The task-draining block of `background_worker` (lines 94-109): inside
a single `std::lock_guard<std::mutex> lock(self->tasks_mutex)`, iterate
the map in order; every entry with `execute_time <= now` has its action
invoked (still inside the `lock_guard` scope, hence `lockHeld := true`)
and is then erased; later entries are kept.  Returns the invocations in
order together with the surviving map. -/
def linuxDrain (now2 : Nat) : List LTask → List LCall × List LTask
  | [] => ([], [])
  | t :: ts =>
    let r := linuxDrain now2 ts
    if t.due ≤ now2 then (⟨t.id, true⟩ :: r.1, r.2) else (r.1, t :: r.2)

/-- `stop_background_service` (lines 187-197): it clears
`background_running`, notifies the condition variable, joins and resets
the worker thread — and performs no operation at all on
`scheduled_tasks`, so the pending map survives the stop unchanged. -/
def linuxStopTasks (ts : List LTask) : List LTask := ts

/-! ### Windows scheduler cycle with its lock discipline -/

/-- One action invocation by the Windows `TaskScheduler`, recording
whether `tasks_mutex_` was held when `task()` ran. -/
structure WCall where
  id       : String
  gen      : Nat
  lockHeld : Bool
deriving DecidableEq, Repr

/-- One iteration of `TaskScheduler` (lines 105-131) on a non-empty map
whose earliest entry is due: copy the task, erase it, `lock.unlock()`,
then invoke `task()` — so the invocation happens with the lock released
(`lockHeld := false`).  If the earliest entry is not yet due (or the map
is empty) no invocation happens and the map is unchanged. -/
def winCycle (now2 : Nat) (ts : List STask) : Option WCall × List STask :=
  match minDue ts with
  | none => (none, ts)
  | some m =>
    if m.due ≤ now2 then (some ⟨m.id, m.gen, false⟩, eraseId ts m.id)
    else (none, ts)

/-! ### Windows scheduler cycle with possibly-throwing actions -/

/-- A task whose action may raise when invoked. -/
structure ATask where
  id     : String
  due    : Nat
  throws : Bool
deriving DecidableEq, Repr

def minDueAuxA (m : ATask) : List ATask → ATask
  | [] => m
  | t :: ts => minDueAuxA (if t.due < m.due then t else m) ts

/-- `std::min_element` over possibly-throwing tasks. -/
def minDueA : List ATask → Option ATask
  | [] => none
  | t :: ts => some (minDueAuxA t ts)

def eraseIdA (ts : List ATask) (tid : String) : List ATask :=
  ts.filter (fun t => t.id ≠ tid)

/-- Invoking an action: a throwing action raises. -/
def runAction (t : ATask) : Except Unit Unit :=
  if t.throws then Except.error () else Except.ok ()

/-- One `TaskScheduler` iteration with the invocation `task()` at line 123
transcribed as-is: there is no try/catch around it, so an exception
raised by the action propagates out of the whole loop body (in C++ this
escapes the thread function and terminates the process); the `Except`
error is therefore propagated, not swallowed. -/
def winCycleRun (now2 : Nat) (ts : List ATask) :
    Except Unit (Option String × List ATask) :=
  match minDueA ts with
  | none => Except.ok (none, ts)
  | some m =>
    if m.due ≤ now2 then
      match runAction m with
      | Except.error e => Except.error e
      | Except.ok _ => Except.ok (some m.id, eraseIdA ts m.id)
    else Except.ok (none, ts)

/-- Repeated scheduler iterations at a fixed instant, collecting the ids
of the executed tasks; the loop dies as soon as one action raises. -/
def winDrainRun : Nat → Nat → List ATask → Except Unit (List String)
  | 0, _, _ => Except.ok []
  | fuel + 1, now2, ts =>
    match winCycleRun now2 ts with
    | Except.error e => Except.error e
    | Except.ok (none, _) => Except.ok []
    | Except.ok (some i, ts2) =>
      match winDrainRun fuel now2 ts2 with
      | Except.error e => Except.error e
      | Except.ok l => Except.ok (i :: l)

/-! ### Condition-variable signalling of the four operations -/

/-- `ScheduleTask` (lines 59-69): map insert/replace followed by
`tasks_cv_.notify_one()` — the second component records that the call
signals the scheduler's condition variable. -/
def scheduleTaskSignals (ts : List STask) (tid : String) (g due2 : Nat) :
    List STask × Bool :=
  (eraseId ts tid ++ [⟨tid, g, due2⟩], true)

/-- `CancelTask` (lines 71-74): erase only; the body contains no notify
call, so cancelling never signals the condition variable. -/
def cancelTaskSignals (ts : List STask) (tid : String) : List STask × Bool :=
  (eraseId ts tid, false)

/-- `SetInterval` (lines 55-57): store the new interval; no notify call,
and the worker sleeps in `sleep_for`, which cannot be interrupted. -/
def setIntervalSignals (ms : Int) : Int × Bool := (ms, false)

/-- `Stop` (line 37): `tasks_cv_.notify_all()`. -/
def stopSignals : Bool := true

/-- The predicate of the empty-map wait (lines 99-101): the wait ends
when the map has become non-empty or shutdown was requested. -/
def emptyWaitDone (ts : List STask) (schedRunning : Bool) : Bool :=
  (!ts.isEmpty) || (!schedRunning)

/-- The predicate of the wait-until-next-due (lines 127-129): it checks
only `scheduler_running_`; the map contents play no role, so a wakeup
caused by a newly scheduled task finds the predicate false and the wait
resumes until the original deadline. -/
def dueWaitDone (schedRunning : Bool) : Bool := !schedRunning

/-! ### Periodic tick cadence -/

/-- Publication time of the c-th tick of the Windows `BackgroundWorker`
(lines 76-91): the loop publishes at its top — the first tick at time 0,
immediately after `Start` — and then sleeps one interval. -/
def winTickTime (interval : Nat) : Nat → Nat
  | 0 => 0
  | c + 1 => winTickTime interval c + interval

/-- Publication time of the c-th tick of the Linux `background_worker`
(lines 74-91): the loop first waits one interval (`wait_for`), then
publishes — the first tick at time `interval`. -/
def linuxTickTime (interval : Nat) : Nat → Nat
  | 0 => interval
  | c + 1 => linuxTickTime interval c + interval

/-- Number of Windows ticks published by time `dur` (for a positive
interval every cycle index beyond `dur` publishes after `dur`, so the
range is exhaustive). -/
def winTickCount (interval dur : Nat) : Nat :=
  ((List.range (dur + 1)).filter (fun c => winTickTime interval c ≤ dur)).length

/-- Number of Linux ticks published by time `dur`. -/
def linuxTickCount (interval dur : Nat) : Nat :=
  ((List.range (dur + 1)).filter (fun c => linuxTickTime interval c ≤ dur)).length

/-! ### The `scheduleBackgroundTask` method handler (Windows plugin) -/

/-- The fragment of `flutter::EncodableValue` the handler inspects. -/
inductive FlVal where
  | str (s : String)
  | intv (n : Int)
  | boolv (b : Bool)
  | nullv
deriving DecidableEq, Repr

/-- `arguments->find(EncodableValue(k))` on the arguments map. -/
def lookupArg (m : List (String × FlVal)) (k : String) : Option FlVal :=
  (m.find? (fun e => e.1 == k)).map (fun e => e.2)

/-- The registry mutation performed by `BackgroundService::ScheduleTask`
once the handler reaches it, with the delay as the signed `int64_t` the
wire gives us: `execute_time = now + delay` (a negative delay yields a
due time in the past). -/
def scheduleTaskCore (reg : List (String × Int)) (tid : String)
    (now2 delay : Int) : List (String × Int) :=
  reg.filter (fun e => e.1 ≠ tid) ++ [(tid, now2 + delay)]

/-- `FlutterMcpPlugin::ScheduleBackgroundTask`
(src/windows/flutter_mcp_plugin.cpp lines 193-227): reject a missing
arguments map, missing `taskId`/`delayMillis` keys, or wrongly typed
values with an `INVALID_ARGS` error (leaving the registry untouched);
otherwise forward to `ScheduleTask`.  No emptiness check on the id and
no sign check on the delay is performed. -/
def scheduleBgTaskMethod (now2 : Int) (args : Option (List (String × FlVal)))
    (reg : List (String × Int)) : Except String (List (String × Int)) :=
  match args with
  | none => Except.error "INVALID_ARGS"
  | some m =>
    match lookupArg m "taskId", lookupArg m "delayMillis" with
    | some (FlVal.str tid), some (FlVal.intv d) =>
        Except.ok (scheduleTaskCore reg tid now2 d)
    | some _, some _ => Except.error "INVALID_ARGS"
    | _, _ => Except.error "INVALID_ARGS"

/-! ### Lemmas -/

/-! ### Basic lemmas about the map operations -/

theorem mem_eraseId {ts : List STask} {tid : String} {t : STask} :
    t ∈ eraseId ts tid ↔ t ∈ ts ∧ t.id ≠ tid := by
  simp [eraseId]

theorem eraseId_sublist (ts : List STask) (tid : String) :
    List.Sublist (eraseId ts tid) ts :=
  List.filter_sublist ts

theorem taskGens_eraseId_sublist (ts : List STask) (tid : String) :
    List.Sublist (taskGens (eraseId ts tid)) (taskGens ts) :=
  List.Sublist.map (fun t : STask => t.gen) (eraseId_sublist ts tid)

theorem taskGens_eraseId_subset (ts : List STask) (tid : String) :
    ∀ g ∈ taskGens (eraseId ts tid), g ∈ taskGens ts :=
  fun _ hg => (taskGens_eraseId_sublist ts tid).subset hg

theorem minDueAux_mem (m : STask) (ts : List STask) : minDueAux m ts ∈ m :: ts := by
  induction ts generalizing m with
  | nil => simp [minDueAux]
  | cons t ts ih =>
    simp only [minDueAux]
    rcases List.mem_cons.mp (ih (if t.due < m.due then t else m)) with h1 | h1
    · rw [h1]
      by_cases hc : t.due < m.due <;> simp [hc]
    · simp [h1]

theorem minDueAux_le (m : STask) (ts : List STask) :
    (minDueAux m ts).due ≤ m.due ∧ ∀ t ∈ ts, (minDueAux m ts).due ≤ t.due := by
  induction ts generalizing m with
  | nil => simp [minDueAux]
  | cons t ts ih =>
    simp only [minDueAux]
    by_cases hc : t.due < m.due
    · rw [if_pos hc]
      obtain ⟨h1, h2⟩ := ih t
      refine ⟨le_trans h1 (le_of_lt hc), ?_⟩
      intro u hu
      rcases List.mem_cons.mp hu with rfl | hu
      · exact h1
      · exact h2 u hu
    · rw [if_neg hc]
      obtain ⟨h1, h2⟩ := ih m
      refine ⟨h1, ?_⟩
      intro u hu
      rcases List.mem_cons.mp hu with rfl | hu
      · exact le_trans h1 (le_of_not_lt hc)
      · exact h2 u hu

theorem minDue_mem {ts : List STask} {m : STask} (h : minDue ts = some m) : m ∈ ts := by
  cases ts with
  | nil => simp [minDue] at h
  | cons t ts =>
    simp only [minDue, Option.some.injEq] at h
    exact h ▸ minDueAux_mem t ts

theorem minDue_le {ts : List STask} {m : STask} (h : minDue ts = some m) :
    ∀ t ∈ ts, m.due ≤ t.due := by
  cases ts with
  | nil => simp [minDue] at h
  | cons t ts =>
    simp only [minDue, Option.some.injEq] at h
    intro u hu
    rcases List.mem_cons.mp hu with rfl | hu
    · exact h ▸ (minDueAux_le u ts).1
    · exact h ▸ (minDueAux_le t ts).2 u hu

/-! ### Shape of `genList` after each step -/

theorem mem_genList {s : SvcState} {g : Nat} :
    g ∈ genList s ↔ g ∈ taskGens s.tasks ∨ g ∈ pendGens s ∨ g ∈ s.executed := by
  simp [genList, List.mem_append, or_assoc]

theorem genList_shape (s : SvcState) :
    genList s = taskGens s.tasks ++ (pendGens s ++ s.executed) := by
  simp [genList]

theorem genList_schedF (s : SvcState) (tid : String) (d : Nat) :
    genList (schedF s tid d)
      = taskGens (eraseId s.tasks tid) ++ s.nextGen :: (pendGens s ++ s.executed) := by
  simp [genList, schedF, taskGens, pendGens, List.map_append]

theorem genList_cancelF (s : SvcState) (tid : String) :
    genList (cancelF s tid)
      = taskGens (eraseId s.tasks tid) ++ (pendGens s ++ s.executed) := by
  simp [genList, cancelF, pendGens]

theorem genList_popF (s : SvcState) (t : STask) :
    genList (popF s t) = taskGens (eraseId s.tasks t.id) ++ t.gen :: s.executed := by
  simp [genList, popF, pendGens]

theorem genList_execF (s : SvcState) (t : STask) :
    genList (execF s t) = taskGens s.tasks ++ (s.executed ++ [t.gen]) := by
  simp [genList, execF, pendGens]

theorem genList_stopEndF (s : SvcState) :
    genList (stopEndF s) = pendGens s ++ s.executed := by
  simp [genList, stopEndF, taskGens, pendGens]

/-! ### Invariant preservation -/

theorem nodup_insert_fresh {A X : List Nat} {g : Nat} (hA : A.Nodup) (hX : X.Nodup)
    (hAX : List.Disjoint A X) (hgA : g ∉ A) (hgX : g ∉ X) : (A ++ g :: X).Nodup := by
  rw [List.nodup_middle, List.nodup_cons]
  refine ⟨?_, List.nodup_append.mpr ⟨hA, hX, hAX⟩⟩
  simp only [List.mem_append]
  rintro (h | h)
  · exact hgA h
  · exact hgX h

theorem gen_not_mem_eraseId {ts : List STask} {t : STask} (hn : (taskGens ts).Nodup)
    (ht : t ∈ ts) : t.gen ∉ taskGens (eraseId ts t.id) := by
  intro hmem
  obtain ⟨u, hu, hgu⟩ := List.mem_map.mp hmem
  obtain ⟨hu1, hu2⟩ := mem_eraseId.mp hu
  have heq : u = t := List.inj_on_of_nodup_map hn hu1 ht hgu
  exact hu2 (by rw [heq])

theorem svcInv_step {l : Lbl} {a b : SvcState} (hs : Step l a b) (hi : SvcInv a) :
    SvcInv b := by
  obtain ⟨hn, hb, hp⟩ := hi
  rw [genList_shape] at hn
  cases hs with
  | start s h1 h2 h3 h4 =>
      refine ⟨?_, hb, fun h => by simp [startF] at h⟩
      rw [genList_shape]; exact hn
  | schedule s tid d =>
      have hT : (taskGens a.tasks).Nodup := hn.of_append_left
      have hX : (pendGens a ++ a.executed).Nodup := hn.of_append_right
      have hdisj : List.Disjoint (taskGens a.tasks) (pendGens a ++ a.executed) :=
        List.disjoint_of_nodup_append hn
      refine ⟨?_, ?_, fun h => hp h⟩
      · rw [genList_schedF]
        refine nodup_insert_fresh ((taskGens_eraseId_sublist a.tasks tid).nodup hT) hX
          (fun x hx => hdisj (taskGens_eraseId_subset a.tasks tid x hx)) ?_ ?_
        · intro hmem
          exact Nat.lt_irrefl a.nextGen
            (hb a.nextGen (mem_genList.mpr (Or.inl (taskGens_eraseId_subset _ _ _ hmem))))
        · intro hmem
          rcases List.mem_append.mp hmem with hmp | hme
          · exact Nat.lt_irrefl a.nextGen
              (hb a.nextGen (mem_genList.mpr (Or.inr (Or.inl hmp))))
          · exact Nat.lt_irrefl a.nextGen
              (hb a.nextGen (mem_genList.mpr (Or.inr (Or.inr hme))))
      · intro g hg
        rw [genList_schedF] at hg
        rcases List.mem_append.mp hg with hF | hg2
        · exact Nat.lt_succ_of_lt
            (hb g (mem_genList.mpr (Or.inl (taskGens_eraseId_subset _ _ _ hF))))
        · rcases List.mem_cons.mp hg2 with rfl | hg3
          · exact Nat.lt_succ_self _
          · rcases List.mem_append.mp hg3 with hmp | hme
            · exact Nat.lt_succ_of_lt (hb g (mem_genList.mpr (Or.inr (Or.inl hmp))))
            · exact Nat.lt_succ_of_lt (hb g (mem_genList.mpr (Or.inr (Or.inr hme))))
  | cancel s tid =>
      refine ⟨?_, ?_, fun h => hp h⟩
      · rw [genList_cancelF]
        exact ((taskGens_eraseId_sublist a.tasks tid).append_right _).nodup hn
      · intro g hg
        rw [genList_cancelF] at hg
        rcases List.mem_append.mp hg with hF | hg2
        · exact hb g (mem_genList.mpr (Or.inl (taskGens_eraseId_subset _ _ _ hF)))
        · rcases List.mem_append.mp hg2 with hmp | hme
          · exact hb g (mem_genList.mpr (Or.inr (Or.inl hmp)))
          · exact hb g (mem_genList.mpr (Or.inr (Or.inr hme)))
  | stopBegin s h =>
      refine ⟨?_, hb, fun h2 => hp h2⟩
      rw [genList_shape]; exact hn
  | stopEnd s h1 h2 h3 =>
      refine ⟨?_, ?_, fun h => hp h⟩
      · rw [genList_stopEndF]
        exact hn.of_append_right
      · intro g hg
        rw [genList_stopEndF] at hg
        rcases List.mem_append.mp hg with hmp | hme
        · exact hb g (mem_genList.mpr (Or.inr (Or.inl hmp)))
        · exact hb g (mem_genList.mpr (Or.inr (Or.inr hme)))
  | stopNoop s h1 h2 =>
      refine ⟨?_, hb, hp⟩
      rw [genList_shape]; exact hn
  | pop s t h1 h2 h3 h4 =>
      have hps : pendGens a = [] := by simp [pendGens, h2]
      rw [hps, List.nil_append] at hn
      have hT : (taskGens a.tasks).Nodup := hn.of_append_left
      have hE : a.executed.Nodup := hn.of_append_right
      have hdisj : List.Disjoint (taskGens a.tasks) a.executed :=
        List.disjoint_of_nodup_append hn
      have htm : t ∈ a.tasks := minDue_mem h3
      have htg : t.gen ∈ taskGens a.tasks := List.mem_map.mpr ⟨t, htm, rfl⟩
      refine ⟨?_, ?_, ?_⟩
      · rw [genList_popF]
        exact nodup_insert_fresh ((taskGens_eraseId_sublist a.tasks t.id).nodup hT) hE
          (fun x hx => hdisj (taskGens_eraseId_subset _ _ _ hx))
          (gen_not_mem_eraseId hT htm) (fun hx => hdisj htg hx)
      · intro g hg
        rw [genList_popF] at hg
        rcases List.mem_append.mp hg with hF | hg2
        · exact hb g (mem_genList.mpr (Or.inl (taskGens_eraseId_subset _ _ _ hF)))
        · rcases List.mem_cons.mp hg2 with rfl | hg3
          · exact hb _ (mem_genList.mpr (Or.inl htg))
          · exact hb g (mem_genList.mpr (Or.inr (Or.inr hg3)))
      · intro h
        exact Bool.noConfusion (h1.symm.trans h)
  | exec s t h =>
      have hps : pendGens a = [t.gen] := by simp [pendGens, h]
      rw [hps] at hn
      have hperm :
          List.Perm (taskGens a.tasks ++ ([t.gen] ++ a.executed))
            (taskGens a.tasks ++ (a.executed ++ [t.gen])) :=
        List.Perm.append_left _ List.perm_append_comm
      refine ⟨?_, ?_, fun _ => rfl⟩
      · rw [genList_execF]
        exact (hperm.nodup_iff).mp hn
      · intro g hg
        rw [genList_execF] at hg
        have hg2 : g ∈ taskGens a.tasks ++ ([t.gen] ++ a.executed) :=
          hperm.mem_iff.mpr hg
        rcases List.mem_append.mp hg2 with hF | hg3
        · exact hb g (mem_genList.mpr (Or.inl hF))
        · rcases List.mem_append.mp hg3 with hmp | hme
          · refine hb g (mem_genList.mpr (Or.inr (Or.inl ?_)))
            rw [hps]; exact hmp
          · exact hb g (mem_genList.mpr (Or.inr (Or.inr hme)))
  | tick s h =>
      refine ⟨?_, hb, fun h2 => hp h2⟩
      rw [genList_shape]; exact hn
  | workerExit s h1 h2 =>
      refine ⟨?_, hb, fun h3 => hp h3⟩
      rw [genList_shape]; exact hn
  | schedExit s h1 h2 h3 =>
      refine ⟨?_, hb, fun _ => h3⟩
      rw [genList_shape]; exact hn
  | advance s d =>
      refine ⟨?_, hb, fun h2 => hp h2⟩
      rw [genList_shape]; exact hn

theorem svcInv_reachFrom {a b : SvcState} (h : ReachFrom a b) (hi : SvcInv a) : SvcInv b := by
  induction h with
  | refl => exact hi
  | tail h1 h2 ih =>
      obtain ⟨l, hstep⟩ := h2
      exact svcInv_step hstep ih

theorem svcInv_init : SvcInv svcInit :=
  ⟨by simp [genList, taskGens, pendGens, svcInit],
   by simp [genList, taskGens, pendGens, svcInit],
   fun _ => rfl⟩

theorem svcInv_reach {s : SvcState} (h : Reach s) : SvcInv s :=
  svcInv_reachFrom h svcInv_init

theorem dead_nostart_step {a b : SvcState} (h : NoStartStep a b) (hd : DeadSvc a) :
    DeadSvc b ∧ b.executed = a.executed ∧ b.ticks = a.ticks := by
  obtain ⟨l, hne, hstep⟩ := h
  obtain ⟨hw, hs, hpd⟩ := hd
  cases hstep with
  | start s h1 h2 h3 h4 => exact absurd rfl hne
  | schedule s tid d => exact ⟨⟨hw, hs, hpd⟩, rfl, rfl⟩
  | cancel s tid => exact ⟨⟨hw, hs, hpd⟩, rfl, rfl⟩
  | stopBegin s h => exact ⟨⟨hw, hs, hpd⟩, rfl, rfl⟩
  | stopEnd s h1 h2 h3 => exact ⟨⟨hw, hs, hpd⟩, rfl, rfl⟩
  | stopNoop s h1 h2 => exact ⟨⟨hw, hs, hpd⟩, rfl, rfl⟩
  | pop s t h1 h2 h3 h4 => exact Bool.noConfusion (hs.symm.trans h1)
  | exec s t h => exact Option.noConfusion (hpd.symm.trans h)
  | tick s h => exact Bool.noConfusion (hw.symm.trans h)
  | workerExit s h1 h2 => exact Bool.noConfusion (hw.symm.trans h1)
  | schedExit s h1 h2 h3 => exact Bool.noConfusion (hs.symm.trans h1)
  | advance s d => exact ⟨⟨hw, hs, hpd⟩, rfl, rfl⟩

theorem dead_nostart_reach {a b : SvcState} (h : ReachNoStart a b) (hd : DeadSvc a) :
    DeadSvc b ∧ b.executed = a.executed ∧ b.ticks = a.ticks := by
  induction h with
  | refl => exact ⟨hd, rfl, rfl⟩
  | tail h1 h2 ih =>
      obtain ⟨hd2, he, ht⟩ := ih
      obtain ⟨hd3, he2, ht2⟩ := dead_nostart_step h2 hd2
      exact ⟨hd3, he2.trans he, ht2.trans ht⟩

theorem deadGen_step {g : Nat} {l : Lbl} {a b : SvcState} (hstep : Step l a b)
    (hd : DeadGen g a) : DeadGen g b := by
  obtain ⟨hm, hlt⟩ := hd
  cases hstep with
  | start s h1 h2 h3 h4 => exact ⟨fun h => hm (by rw [genList_shape] at h ⊢; exact h), hlt⟩
  | schedule s tid d =>
      refine ⟨?_, Nat.lt_succ_of_lt hlt⟩
      rw [genList_schedF]
      intro hg
      rcases List.mem_append.mp hg with hF | hg2
      · exact hm (mem_genList.mpr (Or.inl (taskGens_eraseId_subset _ _ _ hF)))
      · rcases List.mem_cons.mp hg2 with rfl | hg3
        · exact Nat.lt_irrefl _ hlt
        · rcases List.mem_append.mp hg3 with hmp | hme
          · exact hm (mem_genList.mpr (Or.inr (Or.inl hmp)))
          · exact hm (mem_genList.mpr (Or.inr (Or.inr hme)))
  | cancel s tid =>
      refine ⟨?_, hlt⟩
      rw [genList_cancelF]
      intro hg
      rcases List.mem_append.mp hg with hF | hg2
      · exact hm (mem_genList.mpr (Or.inl (taskGens_eraseId_subset _ _ _ hF)))
      · rcases List.mem_append.mp hg2 with hmp | hme
        · exact hm (mem_genList.mpr (Or.inr (Or.inl hmp)))
        · exact hm (mem_genList.mpr (Or.inr (Or.inr hme)))
  | stopBegin s h => exact ⟨fun h2 => hm (by rw [genList_shape] at h2 ⊢; exact h2), hlt⟩
  | stopEnd s h1 h2 h3 =>
      refine ⟨?_, hlt⟩
      rw [genList_stopEndF]
      intro hg
      rcases List.mem_append.mp hg with hmp | hme
      · exact hm (mem_genList.mpr (Or.inr (Or.inl hmp)))
      · exact hm (mem_genList.mpr (Or.inr (Or.inr hme)))
  | stopNoop s h1 h2 => exact ⟨hm, hlt⟩
  | pop s t h1 h2 h3 h4 =>
      refine ⟨?_, hlt⟩
      rw [genList_popF]
      intro hg
      rcases List.mem_append.mp hg with hF | hg2
      · exact hm (mem_genList.mpr (Or.inl (taskGens_eraseId_subset _ _ _ hF)))
      · rcases List.mem_cons.mp hg2 with rfl | hg3
        · exact hm (mem_genList.mpr (Or.inl (List.mem_map.mpr ⟨t, minDue_mem h3, rfl⟩)))
        · exact hm (mem_genList.mpr (Or.inr (Or.inr hg3)))
  | exec s t h =>
      refine ⟨?_, hlt⟩
      rw [genList_execF]
      intro hg
      rcases List.mem_append.mp hg with hF | hg2
      · exact hm (mem_genList.mpr (Or.inl hF))
      · rcases List.mem_append.mp hg2 with hme | hg3
        · exact hm (mem_genList.mpr (Or.inr (Or.inr hme)))
        · rcases List.mem_singleton.mp hg3 with rfl
          exact hm (mem_genList.mpr (Or.inr (Or.inl (by simp [pendGens, h]))))
  | tick s h => exact ⟨fun h2 => hm (by rw [genList_shape] at h2 ⊢; exact h2), hlt⟩
  | workerExit s h1 h2 => exact ⟨fun h3 => hm (by rw [genList_shape] at h3 ⊢; exact h3), hlt⟩
  | schedExit s h1 h2 h3 => exact ⟨fun h4 => hm (by rw [genList_shape] at h4 ⊢; exact h4), hlt⟩
  | advance s d => exact ⟨fun h2 => hm (by rw [genList_shape] at h2 ⊢; exact h2), hlt⟩

theorem deadGen_reachFrom {g : Nat} {a b : SvcState} (h : ReachFrom a b)
    (hd : DeadGen g a) : DeadGen g b := by
  induction h with
  | refl => exact hd
  | tail h1 h2 ih =>
      obtain ⟨l, hstep⟩ := h2
      exact deadGen_step hstep ih


/-! ### Helper lemmas for the platform models -/

theorem linuxDrain_parts (now2 : Nat) (ts : List LTask) :
    (linuxDrain now2 ts).1.map (fun c => c.id)
        = (ts.filter (fun t => t.due ≤ now2)).map (fun t => t.id) ∧
    (linuxDrain now2 ts).2 = ts.filter (fun t => ¬ (t.due ≤ now2)) := by
  induction ts with
  | nil => exact ⟨rfl, rfl⟩
  | cons t ts ih =>
    obtain ⟨h1, h2⟩ := ih
    by_cases hc : t.due ≤ now2
    · simp [linuxDrain, hc, h1, h2]
    · have hc2 : now2 < t.due := Nat.not_le.mp hc
      simp [linuxDrain, hc, hc2, h1, h2]

theorem eraseId_append (A B : List STask) (tid : String) :
    eraseId (A ++ B) tid = eraseId A tid ++ eraseId B tid := by
  simp [eraseId, List.filter_append]

theorem eraseId_idem (A : List STask) (tid : String) :
    eraseId (eraseId A tid) tid = eraseId A tid := by
  simp [eraseId, List.filter_filter]

theorem filter_id_eraseId (A : List STask) (tid : String) :
    (eraseId A tid).filter (fun t => t.id = tid) = [] := by
  simp [eraseId, List.filter_filter]

theorem winTickTime_eq (i c : Nat) : winTickTime i c = c * i := by
  induction c with
  | zero => simp [winTickTime]
  | succ c ih => simp [winTickTime, ih, Nat.succ_mul]

theorem linuxTickTime_eq (i c : Nat) : linuxTickTime i c = (c + 1) * i := by
  induction c with
  | zero => simp [linuxTickTime]
  | succ c ih => simp [linuxTickTime, ih, Nat.succ_mul]

theorem count_lt_range (k m : Nat) :
    ((List.range m).filter (fun c => c < k)).length = min k m := by
  induction m with
  | zero => simp
  | succ m ih =>
      rw [List.range_succ, List.filter_append, List.length_append, ih]
      by_cases hc : m < k
      · simp [hc]; omega
      · simp [hc]; omega

/-! ### Claim theorems -/

/-- Claim C1: every scheduled task instance runs at most once.  In any
reachable state of the Windows service, the execution log contains no
instance twice, and an instance still in the registry has never run
(after execution, replacement, cancellation or shutdown its instance is
gone for good).  On Linux, one pass of the worker's draining block
invokes each map entry at most once and every invoked entry is erased
from the surviving map. -/
theorem task_at_most_once (s : SvcState) (h : Reach s) :
    (s.executed.Nodup ∧ ∀ t ∈ s.tasks, t.gen ∉ s.executed) ∧
    ∀ now2 ts, ((ts.map (fun t : LTask => t.id)).Nodup →
      ((linuxDrain now2 ts).1.map (fun c => c.id)).Nodup ∧
      ∀ c ∈ (linuxDrain now2 ts).1,
        c.id ∉ ((linuxDrain now2 ts).2.map (fun t => t.id))) := by
  constructor
  · obtain ⟨hn, hb, hp⟩ := svcInv_reach h
    have hn2 : ((taskGens s.tasks ++ pendGens s) ++ s.executed).Nodup := hn
    constructor
    · exact hn2.of_append_right
    · intro t ht hmem
      have htg : t.gen ∈ taskGens s.tasks ++ pendGens s :=
        List.mem_append.mpr (Or.inl (List.mem_map.mpr ⟨t, ht, rfl⟩))
      exact List.disjoint_of_nodup_append hn2 htg hmem
  · intro now2 ts hids
    have hp1 := (linuxDrain_parts now2 ts).1
    have hp2 := (linuxDrain_parts now2 ts).2
    constructor
    · rw [hp1]
      exact ((List.filter_sublist ts).map (fun t : LTask => t.id)).nodup hids
    · intro c hc hcm
      rw [hp2] at hcm
      obtain ⟨v, hv, hvid⟩ := List.mem_map.mp hcm
      have hcid : c.id ∈ (linuxDrain now2 ts).1.map (fun c => c.id) :=
        List.mem_map.mpr ⟨c, hc, rfl⟩
      rw [hp1] at hcid
      obtain ⟨u, hu, huid⟩ := List.mem_map.mp hcid
      have hu2 := List.mem_filter.mp hu
      have hv2 := List.mem_filter.mp hv
      have huv : u = v := List.inj_on_of_nodup_map hids hu2.1 hv2.1 (by rw [huid, hvid])
      rw [huv] at hu2
      have hud : v.due ≤ now2 := by simpa using hu2.2
      have hvd : ¬ v.due ≤ now2 := by simpa using hv2.2
      exact hvd hud

/-- Claim C1, witness: the concrete run schedule-start-pop-execute from
the fresh service satisfies the at-most-once conclusion. -/
theorem task_at_most_once_witness :
    (execF (popF (startF (schedF svcInit "t" 0)) ⟨"t", 0, 0⟩) ⟨"t", 0, 0⟩).executed.Nodup := by
  have hreach :
      Reach (execF (popF (startF (schedF svcInit "t" 0)) ⟨"t", 0, 0⟩) ⟨"t", 0, 0⟩) := by
    have st1 : Step (.schedule "t" 0) svcInit (schedF svcInit "t" 0) :=
      Step.schedule svcInit "t" 0
    have st2 : Step .start (schedF svcInit "t" 0) (startF (schedF svcInit "t" 0)) :=
      Step.start (schedF svcInit "t" 0) rfl rfl rfl rfl
    have st3 : Step (.pop ⟨"t", 0, 0⟩) (startF (schedF svcInit "t" 0))
        (popF (startF (schedF svcInit "t" 0)) ⟨"t", 0, 0⟩) :=
      Step.pop (startF (schedF svcInit "t" 0)) ⟨"t", 0, 0⟩ rfl rfl (by decide) (by decide)
    have st4 : Step (.exec ⟨"t", 0, 0⟩) (popF (startF (schedF svcInit "t" 0)) ⟨"t", 0, 0⟩)
        (execF (popF (startF (schedF svcInit "t" 0)) ⟨"t", 0, 0⟩) ⟨"t", 0, 0⟩) :=
      Step.exec (popF (startF (schedF svcInit "t" 0)) ⟨"t", 0, 0⟩) ⟨"t", 0, 0⟩ rfl
    exact Relation.ReflTransGen.tail (Relation.ReflTransGen.tail
      (Relation.ReflTransGen.tail (Relation.ReflTransGen.single ⟨_, st1⟩) ⟨_, st2⟩)
      ⟨_, st3⟩) ⟨_, st4⟩
  exact (task_at_most_once _ hreach).1.1

/-- Claim C2 (amended): once a `Stop` call on the Windows service has
returned (`stopEnd`), both threads have exited, the map has been
cleared, and — as long as no new `Start` happens — no further task
action runs and no further periodic event is published.  On Linux,
however, `stop_background_service` leaves `scheduled_tasks` untouched,
so pending tasks are not discarded there (they survive the stop). -/
theorem stop_synchronous_final (s s2 : SvcState) (hr : Reach s)
    (hstep : Step .stopEnd s s2) :
    s2.workerAlive = false ∧ s2.schedulerAlive = false ∧ s2.tasks = [] ∧
    (∀ s3, ReachNoStart s2 s3 → s3.executed = s2.executed ∧ s3.ticks = s2.ticks) ∧
    (∀ ts, linuxStopTasks ts = ts) := by
  have hinv := svcInv_reach hr
  cases hstep with
  | stopEnd s h1 h2 h3 =>
      refine ⟨h2, h3, rfl, ?_, fun ts => rfl⟩
      intro s3 h3r
      have hd : DeadSvc (stopEndF s) := ⟨h2, h3, hinv.pendNone h3⟩
      obtain ⟨hd3, he, ht⟩ := dead_nostart_reach h3r hd
      exact ⟨he, ht⟩

/-- Claim C2, counterexample to the claim as stated: the Linux stop does
not discard a pending task — the registry is returned unchanged, so the
task survives the shutdown (and would fire after a later start). -/
theorem stop_discards_cex :
    linuxStopTasks [⟨"t", 100⟩] = [⟨"t", 100⟩] ∧ linuxStopTasks [⟨"t", 100⟩] ≠ [] :=
  ⟨rfl, by decide⟩

/-- Claim C2, witness: a concrete start-stop run of the Windows service
in which a task was pending; after `stopEnd` the map is empty. -/
theorem stop_synchronous_final_witness :
    (stopEndF (schedExitF (workerExitF (stopBeginF (startF
        (schedF svcInit "u" 5)))))).tasks = [] := by
  have hreach :
      Reach (schedExitF (workerExitF (stopBeginF (startF (schedF svcInit "u" 5))))) := by
    have st1 : Step (.schedule "u" 5) svcInit (schedF svcInit "u" 5) :=
      Step.schedule svcInit "u" 5
    have st2 : Step .start (schedF svcInit "u" 5) (startF (schedF svcInit "u" 5)) :=
      Step.start (schedF svcInit "u" 5) rfl rfl rfl rfl
    have st3 : Step .stopBegin (startF (schedF svcInit "u" 5))
        (stopBeginF (startF (schedF svcInit "u" 5))) :=
      Step.stopBegin (startF (schedF svcInit "u" 5)) rfl
    have st4 : Step .workerExit (stopBeginF (startF (schedF svcInit "u" 5)))
        (workerExitF (stopBeginF (startF (schedF svcInit "u" 5)))) :=
      Step.workerExit (stopBeginF (startF (schedF svcInit "u" 5))) rfl rfl
    have st5 : Step .schedExit (workerExitF (stopBeginF (startF (schedF svcInit "u" 5))))
        (schedExitF (workerExitF (stopBeginF (startF (schedF svcInit "u" 5))))) :=
      Step.schedExit (workerExitF (stopBeginF (startF (schedF svcInit "u" 5)))) rfl rfl rfl
    exact Relation.ReflTransGen.tail (Relation.ReflTransGen.tail
      (Relation.ReflTransGen.tail (Relation.ReflTransGen.tail
        (Relation.ReflTransGen.single ⟨_, st1⟩) ⟨_, st2⟩) ⟨_, st3⟩) ⟨_, st4⟩) ⟨_, st5⟩
  have hstep : Step .stopEnd (schedExitF (workerExitF (stopBeginF (startF
      (schedF svcInit "u" 5)))))
      (stopEndF (schedExitF (workerExitF (stopBeginF (startF (schedF svcInit "u" 5)))))) :=
    Step.stopEnd (schedExitF (workerExitF (stopBeginF (startF (schedF svcInit "u" 5)))))
      rfl rfl rfl
  exact (stop_synchronous_final _ _ hreach hstep).2.2.1

theorem winCycle_empty {now2 : Nat} {ts : List STask} (hm : minDue ts = none) :
    winCycle now2 ts = (none, ts) := by
  unfold winCycle; rw [hm]

theorem winCycle_due {now2 : Nat} {ts : List STask} {m : STask}
    (hm : minDue ts = some m) (hd : m.due ≤ now2) :
    winCycle now2 ts = (some ⟨m.id, m.gen, false⟩, eraseId ts m.id) := by
  unfold winCycle; rw [hm]; simp [hd]

theorem winCycle_not_due {now2 : Nat} {ts : List STask} {m : STask}
    (hm : minDue ts = some m) (hd : ¬ m.due ≤ now2) :
    winCycle now2 ts = (none, ts) := by
  unfold winCycle; rw [hm]; simp [hd]

/-- Claim C3, counterexample: cancelling a task performs no notification
on the scheduler's condition variable, changing the periodic interval
performs none either, and the predicate of the wait-until-next-due is
false whenever the scheduler is still running — so none of these makes
the sleeping loop wake early and re-evaluate its wait target. -/
theorem cancel_no_wake_cex :
    (cancelTaskSignals [⟨"a", 0, 100⟩] "a").2 = false ∧
    (setIntervalSignals 500).2 = false ∧
    dueWaitDone true = false :=
  ⟨rfl, rfl, rfl⟩

/-- Claim C3 (amended): only `ScheduleTask` and `Stop` signal the
condition variable; `CancelTask` and `SetInterval` do not.  A schedule
does end the empty-map wait (its predicate sees the new entry), but the
wait-until-next-due checks only the shutdown flag, so while the
scheduler runs that wait continues to its original deadline regardless
of newly scheduled, cancelled or re-timed tasks. -/
theorem scheduler_wake_discipline :
    (∀ ts tid g d2, (scheduleTaskSignals ts tid g d2).2 = true ∧
        emptyWaitDone (scheduleTaskSignals ts tid g d2).1 true = true) ∧
    stopSignals = true ∧
    (∀ ts tid, (cancelTaskSignals ts tid).2 = false) ∧
    (∀ ms, (setIntervalSignals ms).2 = false) ∧
    (∀ b, dueWaitDone b = !b) := by
  refine ⟨?_, rfl, fun ts tid => rfl, fun ms => rfl, fun b => rfl⟩
  intro ts tid g d2
  refine ⟨rfl, ?_⟩
  simp [scheduleTaskSignals, emptyWaitDone]

/-- Claim C4, counterexample: one pass of the Linux worker over a map
holding one due task invokes its action with `tasks_mutex` held (the
invocation happens inside the `lock_guard` scope). -/
theorem action_under_lock_cex :
    ((linuxDrain 200 [⟨"t1", 100⟩]).1.map (fun c => c.lockHeld)) = [true] := by
  decide

/-- Claim C4 (amended): on Windows every scheduler invocation happens
after `lock.unlock()`, i.e. with the registry lock released; on Linux
every invocation by the worker's draining block happens while
`tasks_mutex` is held. -/
theorem lock_discipline_per_platform :
    (∀ now2 ts c ts2, winCycle now2 ts = (some c, ts2) → c.lockHeld = false) ∧
    (∀ now2 ts, ∀ c ∈ (linuxDrain now2 ts).1, c.lockHeld = true) := by
  constructor
  · intro now2 ts c ts2 h
    cases hm : minDue ts with
    | none => rw [winCycle_empty hm] at h; exact absurd h (by simp)
    | some m =>
      by_cases hd : m.due ≤ now2
      · rw [winCycle_due hm hd] at h
        simp only [Prod.mk.injEq, Option.some.injEq] at h
        rw [← h.1]
      · rw [winCycle_not_due hm hd] at h
        exact absurd h (by simp)
  · intro now2 ts
    induction ts with
    | nil => intro c hc; simp [linuxDrain] at hc
    | cons t ts ih =>
      intro c hc
      by_cases hd : t.due ≤ now2
      · simp only [linuxDrain, if_pos hd] at hc
        rcases List.mem_cons.mp hc with rfl | hc2
        · rfl
        · exact ih c hc2
      · simp only [linuxDrain, if_neg hd] at hc
        exact ih c hc

/-- Claim C4, witness: the Windows half applied to a concrete due task. -/
theorem lock_discipline_witness :
    winCycle 0 [⟨"a", 0, 0⟩] = (some ⟨"a", 0, false⟩, []) ∧
    (⟨"a", 0, false⟩ : WCall).lockHeld = false :=
  ⟨by decide, lock_discipline_per_platform.1 0 [⟨"a", 0, 0⟩] ⟨"a", 0, false⟩ [] (by decide)⟩

/-- Claim C5, counterexample: with a due throwing task "bad" and a later
due task "good", the scheduler run dies with the propagated exception
and "good" is never executed — while without "bad" it would have run. -/
theorem unguarded_action_cex :
    winDrainRun 3 20 [⟨"bad", 0, true⟩, ⟨"good", 10, false⟩] = Except.error () ∧
    winDrainRun 3 20 [⟨"good", 10, false⟩] = Except.ok ["good"] :=
  ⟨rfl, rfl⟩

/-- Claim C5 (amended): the invocation `task()` has no surrounding fault
boundary: if the selected due task's action throws, the exception
propagates out of the scheduler iteration (killing the loop); only a
non-throwing action lets the cycle complete normally. -/
theorem unguarded_action_propagates (now2 : Nat) (ts : List ATask) (m : ATask)
    (h1 : minDueA ts = some m) (h2 : m.due ≤ now2) :
    (m.throws = true → winCycleRun now2 ts = Except.error ()) ∧
    (m.throws = false →
      winCycleRun now2 ts = Except.ok (some m.id, eraseIdA ts m.id)) := by
  constructor <;> intro ht <;> simp [winCycleRun, h1, h2, runAction, ht]

/-- Claim C5, witness: the throwing case at a concrete input. -/
theorem unguarded_action_witness :
    minDueA [⟨"bad", 0, true⟩] = some ⟨"bad", 0, true⟩ ∧
    winCycleRun 20 [⟨"bad", 0, true⟩] = Except.error () :=
  ⟨by decide,
   (unguarded_action_propagates 20 [⟨"bad", 0, true⟩] ⟨"bad", 0, true⟩
      (by decide) (by decide)).1 rfl⟩

/-- Claim C6, counterexample: with tasks "a" (due 300) and "b" (due 100)
both due at the worker's wakeup, the Linux drain executes them in map
(id) order — "a" before "b" — although "b" was due earlier, so the
task-result event for "b" does not precede the one for "a". -/
theorem due_order_cex :
    ((linuxDrain 60000 [⟨"a", 300⟩, ⟨"b", 100⟩]).1.map (fun c => c.id)) = ["a", "b"] := by
  decide

/-- Claim C6 (amended): on Windows the scheduler always picks a
minimal-due entry, so a pending task is never executed while a
strictly-earlier-due task is also pending; on Linux the worker drains
all currently due tasks in map (id) order, not due-time order. -/
theorem due_order_per_platform :
    (∀ (ts : List STask) (x y m : STask), x ∈ ts → y ∈ ts → x.due < y.due →
        minDue ts = some m → m.due ≤ x.due ∧ m ≠ y) ∧
    (∀ now2 ts, ((linuxDrain now2 ts).1.map (fun c => c.id))
        = ((ts.filter (fun t => t.due ≤ now2)).map (fun t => t.id))) := by
  constructor
  · intro ts x y m hx hy hxy hm
    have h1 : m.due ≤ x.due := minDue_le hm x hx
    refine ⟨h1, ?_⟩
    intro he
    rw [he] at h1
    exact Nat.lt_irrefl _ (Nat.lt_of_lt_of_le hxy h1)
  · intro now2 ts
    exact (linuxDrain_parts now2 ts).1

/-- Claim C6, witness: the Windows half on the concrete two-task map —
the selected task is "b" (due 100), never "a" (due 300). -/
theorem due_order_witness :
    minDue [⟨"a", 0, 300⟩, ⟨"b", 1, 100⟩] = some ⟨"b", 1, 100⟩ ∧
    (⟨"b", 1, 100⟩ : STask).due ≤ 100 ∧
    (⟨"b", 1, 100⟩ : STask) ≠ ⟨"a", 0, 300⟩ := by
  have h := due_order_per_platform.1 [⟨"a", 0, 300⟩, ⟨"b", 1, 100⟩]
    ⟨"b", 1, 100⟩ ⟨"a", 0, 300⟩ ⟨"b", 1, 100⟩ (by decide) (by decide) (by decide) (by decide)
  exact ⟨by decide, h.1, h.2⟩

/-- Claim C7: re-scheduling under an existing id is delete-then-insert:
after scheduling `tid` twice (the second before the first fired), the
map holds exactly one entry for `tid`, carrying the second call's
instance and due time (`now + d2`); the replaced first instance never
executes in any continuation; and the second instance executes at most
once in any continuation. -/
theorem reschedule_replaces (s : SvcState) (tid : String) (d1 d2 : Nat)
    (hinv : SvcInv s) :
    ((schedF (schedF s tid d1) tid d2).tasks.filter (fun t => t.id = tid))
        = [⟨tid, s.nextGen + 1, s.now + d2⟩] ∧
    (∀ s3, ReachFrom (schedF (schedF s tid d1) tid d2) s3 →
        s.nextGen ∉ s3.executed) ∧
    (∀ s3, ReachFrom (schedF (schedF s tid d1) tid d2) s3 →
        List.count (s.nextGen + 1) s3.executed ≤ 1) := by
  have htasks : (schedF (schedF s tid d1) tid d2).tasks
      = eraseId (eraseId s.tasks tid ++ [⟨tid, s.nextGen, s.now + d1⟩]) tid
          ++ [⟨tid, s.nextGen + 1, s.now + d2⟩] := rfl
  have hkill : eraseId [(⟨tid, s.nextGen, s.now + d1⟩ : STask)] tid = [] := by
    simp [eraseId]
  have htasks2 : (schedF (schedF s tid d1) tid d2).tasks
      = eraseId s.tasks tid ++ [⟨tid, s.nextGen + 1, s.now + d2⟩] := by
    rw [htasks, eraseId_append, eraseId_idem, hkill, List.append_nil]
  refine ⟨?_, ?_, ?_⟩
  · rw [htasks2, List.filter_append, filter_id_eraseId, List.nil_append]
    simp
  · have hdead : DeadGen s.nextGen (schedF (schedF s tid d1) tid d2) := by
      constructor
      · rw [genList_schedF]
        intro hg
        rcases List.mem_append.mp hg with hF | hg2
        · have hF2 : s.nextGen ∈ taskGens (eraseId (schedF s tid d1).tasks tid) := hF
          have hrw : eraseId (schedF s tid d1).tasks tid = eraseId s.tasks tid := by
            rw [show (schedF s tid d1).tasks
                  = eraseId s.tasks tid ++ [⟨tid, s.nextGen, s.now + d1⟩] from rfl,
                eraseId_append, eraseId_idem, hkill, List.append_nil]
          rw [hrw] at hF2
          exact Nat.lt_irrefl s.nextGen
            (hinv.bound s.nextGen
              (mem_genList.mpr (Or.inl (taskGens_eraseId_subset _ _ _ hF2))))
        · rcases List.mem_cons.mp hg2 with he | hg3
          · exact absurd he (Nat.ne_of_lt (Nat.lt_succ_self _))
          · rcases List.mem_append.mp hg3 with hmp | hme
            · exact Nat.lt_irrefl s.nextGen
                (hinv.bound s.nextGen (mem_genList.mpr (Or.inr (Or.inl hmp))))
            · exact Nat.lt_irrefl s.nextGen
                (hinv.bound s.nextGen (mem_genList.mpr (Or.inr (Or.inr hme))))
      · exact Nat.lt_trans (Nat.lt_succ_self _) (Nat.lt_succ_self _)
    intro s3 hr3 hmem
    exact (deadGen_reachFrom hr3 hdead).1 (mem_genList.mpr (Or.inr (Or.inr hmem)))
  · intro s3 hr3
    have hinv2 : SvcInv (schedF (schedF s tid d1) tid d2) :=
      svcInv_step (Step.schedule (schedF s tid d1) tid d2)
        (svcInv_step (Step.schedule s tid d1) hinv)
    have hinv3 := svcInv_reachFrom hr3 hinv2
    have hn2 : ((taskGens s3.tasks ++ pendGens s3) ++ s3.executed).Nodup := hinv3.nodup
    exact List.nodup_iff_count_le_one.mp hn2.of_append_right (s.nextGen + 1)

/-- Claim C7, witness: scheduling "x" with delay 1000 and re-scheduling
with delay 50 from the fresh service leaves exactly the one new entry. -/
theorem reschedule_replaces_witness :
    ((schedF (schedF svcInit "x" 1000) "x" 50).tasks.filter (fun t => t.id = "x"))
      = [⟨"x", 1, 50⟩] :=
  (reschedule_replaces svcInit "x" 1000 50 svcInv_init).1

/-- Claim C8, counterexample: with interval 100, by the time one full
interval has elapsed the Windows worker has already published two ticks
(one immediately at start, one at 100), not exactly one. -/
theorem tick_per_interval_cex :
    winTickCount 100 100 = 2 ∧ winTickCount 100 100 ≠ 1 :=
  ⟨by decide, by decide⟩

/-- Claim C8 (amended): the Windows worker publishes at the top of each
cycle, the first tick immediately at start, so after n elapsed intervals
it has published n+1 ticks; the Linux worker waits one interval before
each publish and has published exactly n. -/
theorem tick_cadence (i n : Nat) (hi : 0 < i) :
    winTickCount i (n * i) = n + 1 ∧ linuxTickCount i (n * i) = n := by
  constructor
  · rw [winTickCount]
    have hcong : ∀ c ∈ List.range (n * i + 1),
        (decide (winTickTime i c ≤ n * i)) = (decide (c < n + 1)) := by
      intro c _
      rw [winTickTime_eq, decide_eq_decide, Nat.lt_succ_iff]
      exact ⟨fun h => Nat.le_of_mul_le_mul_right h hi,
             fun h => Nat.mul_le_mul_right i h⟩
    rw [List.filter_congr hcong, count_lt_range]
    have h1 : n + 1 ≤ n * i + 1 := Nat.succ_le_succ (Nat.le_mul_of_pos_right n hi)
    omega
  · rw [linuxTickCount]
    have hcong : ∀ c ∈ List.range (n * i + 1),
        (decide (linuxTickTime i c ≤ n * i)) = (decide (c < n)) := by
      intro c _
      rw [linuxTickTime_eq, decide_eq_decide]
      constructor
      · intro h
        exact Nat.lt_of_succ_le (Nat.le_of_mul_le_mul_right h hi)
      · intro h
        exact Nat.mul_le_mul_right i (Nat.succ_le_of_lt h)
    rw [List.filter_congr hcong, count_lt_range]
    have h1 : n ≤ n * i + 1 := Nat.le_succ_of_le (Nat.le_mul_of_pos_right n hi)
    omega

/-- Claim C8, witness: interval 100, one elapsed interval. -/
theorem tick_cadence_witness :
    0 < 100 ∧ winTickCount 100 (1 * 100) = 1 + 1 ∧ linuxTickCount 100 (1 * 100) = 1 :=
  ⟨by decide, (tick_cadence 100 1 (by decide)).1, (tick_cadence 100 1 (by decide)).2⟩

/-- Claim C9, counterexample: a call with an empty task id and delay -5
is accepted: the handler returns success and inserts the entry (with a
due time in the past), instead of rejecting with INVALID_ARGS. -/
theorem invalid_args_accepted_cex :
    scheduleBgTaskMethod 0
        (some [("taskId", FlVal.str ""), ("delayMillis", FlVal.intv (-5))]) []
      = Except.ok [("", -5)] := rfl

/-- Claim C9 (amended): the handler rejects only structural defects —
missing arguments map, missing `taskId` or `delayMillis` keys, or wrong
value types — with INVALID_ARGS and an untouched registry; any string id
(empty included) with any int delay (negative included) is accepted and
forwarded to the registry. -/
theorem schedule_args_validation (now2 : Int) (reg : List (String × Int))
    (tid : String) (d : Int) :
    scheduleBgTaskMethod now2 none reg = Except.error "INVALID_ARGS" ∧
    scheduleBgTaskMethod now2 (some [("delayMillis", FlVal.intv d)]) reg
      = Except.error "INVALID_ARGS" ∧
    scheduleBgTaskMethod now2 (some [("taskId", FlVal.str tid)]) reg
      = Except.error "INVALID_ARGS" ∧
    scheduleBgTaskMethod now2
        (some [("taskId", FlVal.boolv true), ("delayMillis", FlVal.intv d)]) reg
      = Except.error "INVALID_ARGS" ∧
    scheduleBgTaskMethod now2
        (some [("taskId", FlVal.str tid), ("delayMillis", FlVal.intv d)]) reg
      = Except.ok (scheduleTaskCore reg tid now2 d) :=
  ⟨rfl, rfl, rfl, rfl, rfl⟩

/-- Claim C10: scheduling has no precondition on service state.  From any
fully stopped state: the task is inserted into the registry anyway; a
`Stop` call returns early changing nothing (in particular not clearing
the new entry); and a continuation exists — start, let the delay elapse,
pop, run — in which the very instance scheduled while stopped executes. -/
theorem schedule_ignores_state (s : SvcState) (tid : String) (d : Nat)
    (h1 : s.isRunning = false) (h2 : s.stopping = false) (h3 : s.workerAlive = false)
    (h4 : s.schedulerAlive = false) (h5 : s.pendingExec = none) (h6 : s.tasks = []) :
    ((⟨tid, s.nextGen, s.now + d⟩ : STask) ∈ (schedF s tid d).tasks) ∧
    Step .stopNoop (schedF s tid d) (schedF s tid d) ∧
    (∀ s2, Step .stopNoop (schedF s tid d) s2 → s2 = schedF s tid d) ∧
    (∃ s3, ReachFrom (schedF s tid d) s3 ∧ s.nextGen ∈ s3.executed) := by
  refine ⟨?_, ?_, ?_, ?_⟩
  · exact List.mem_append.mpr (Or.inr (List.mem_singleton.mpr rfl))
  · exact Step.stopNoop (schedF s tid d) h1 h2
  · intro s2 hstep
    cases hstep
    rfl
  · refine ⟨execF (popF (advF (startF (schedF s tid d)) d) ⟨tid, s.nextGen, s.now + d⟩)
      ⟨tid, s.nextGen, s.now + d⟩, ?_, ?_⟩
    · have st1 : Step .start (schedF s tid d) (startF (schedF s tid d)) :=
        Step.start (schedF s tid d) h1 h2 h3 h4
      have st2 : Step (.advance d) (startF (schedF s tid d))
          (advF (startF (schedF s tid d)) d) :=
        Step.advance (startF (schedF s tid d)) d
      have hmin : minDue (advF (startF (schedF s tid d)) d).tasks
          = some ⟨tid, s.nextGen, s.now + d⟩ := by
        rw [show (advF (startF (schedF s tid d)) d).tasks
              = eraseId s.tasks tid ++ [⟨tid, s.nextGen, s.now + d⟩] from rfl, h6]
        rfl
      have st3 : Step (.pop ⟨tid, s.nextGen, s.now + d⟩)
          (advF (startF (schedF s tid d)) d)
          (popF (advF (startF (schedF s tid d)) d) ⟨tid, s.nextGen, s.now + d⟩) :=
        Step.pop (advF (startF (schedF s tid d)) d) ⟨tid, s.nextGen, s.now + d⟩
          rfl h5 hmin (Nat.le_refl _)
      have st4 : Step (.exec ⟨tid, s.nextGen, s.now + d⟩)
          (popF (advF (startF (schedF s tid d)) d) ⟨tid, s.nextGen, s.now + d⟩)
          (execF (popF (advF (startF (schedF s tid d)) d) ⟨tid, s.nextGen, s.now + d⟩)
            ⟨tid, s.nextGen, s.now + d⟩) :=
        Step.exec (popF (advF (startF (schedF s tid d)) d) ⟨tid, s.nextGen, s.now + d⟩)
          ⟨tid, s.nextGen, s.now + d⟩ rfl
      exact Relation.ReflTransGen.tail (Relation.ReflTransGen.tail
        (Relation.ReflTransGen.tail (Relation.ReflTransGen.single ⟨_, st1⟩) ⟨_, st2⟩)
        ⟨_, st3⟩) ⟨_, st4⟩
    · exact List.mem_append.mpr (Or.inr (List.mem_singleton.mpr rfl))

/-- Claim C10, witness: scheduling on the fresh (stopped) service. -/
theorem schedule_ignores_state_witness :
    (⟨"t", 0, 5⟩ : STask) ∈ (schedF svcInit "t" 5).tasks :=
  (schedule_ignores_state svcInit "t" 5 rfl rfl rfl rfl rfl rfl).1
